import Mathlib

/-!
Verification development for the py2d planar geometry kernel (`py2d/Math.py`).

The Python module is shallowly embedded over exact rationals (`ℚ`): the
`Vector` class becomes the `Vec` structure, point lists stay lists, and the
floating-point tolerance `EPSILON = 0.0001` becomes the rational `1/10000`.
Python division is total here (division by zero yields 0); the places where
the source would raise `ZeroDivisionError` are documented at the definitions.
The one numeric primitive with no exact rational counterpart, the square root
used by `Vector.normalize`, is threaded as an explicit function parameter
`sqrtQ` where the offset engine needs it.
-/

/-- Embedding of the `Vector` class: an (x, y) pair of rationals. -/
structure Vec where
  x : ℚ
  y : ℚ
deriving DecidableEq, Repr

instance : Add Vec := ⟨fun a b => ⟨a.x + b.x, a.y + b.y⟩⟩

instance : Sub Vec := ⟨fun a b => ⟨a.x - b.x, a.y - b.y⟩⟩

/-- `Vector.__mul__` with a scalar argument. -/
def Vec.smul (v : Vec) (k : ℚ) : Vec := ⟨v.x * k, v.y * k⟩

/-- `Vector.__div__` (scalar division). -/
def Vec.divScalar (v : Vec) (k : ℚ) : Vec := ⟨v.x / k, v.y / k⟩

/-- `Vector.__mul__` with a `Vector` argument: the dot product. -/
def Vec.dot (a b : Vec) : ℚ := a.x * b.x + a.y * b.y

/-- `Vector.get_length_squared`. -/
def Vec.length_squared (v : Vec) : ℚ := v.x * v.x + v.y * v.y

/-- `Vector.normal`: the perpendicular vector `(-y, x)`. -/
def Vec.normal (v : Vec) : Vec := ⟨-v.y, v.x⟩

/-- The module-level tolerance constant `EPSILON = 0.0001`. -/
def EPSILON : ℚ := 1 / 10000

/-- `VECTOR_X = Vector(1, 0)`. -/
def VECTOR_X : Vec := ⟨1, 0⟩

/-- `Vector.__eq__`: tolerance-based equality, `|dx| < EPSILON and |dy| < EPSILON`. -/
def veq (a b : Vec) : Bool :=
  decide (|a.x - b.x| < EPSILON ∧ |a.y - b.y| < EPSILON)

/-- Quantization of one coordinate to the 1/10000 grid, modelling the decimal
rounding performed by the `"%.4f"` format used in `Vector.__hash__`.
(The format string rounds the binary double to four decimals; over `ℚ` we use
round-to-nearest. Ties are resolved half-up here where CPython uses half-even;
no statement below depends on a tie.) -/
def round4 (q : ℚ) : ℚ := (round (q * 10000) : ℤ) / 10000

/-- One formatted coordinate of `Vector.__hash__`'s key string: the rounded
value together with a negative-zero flag (`"%.4f" % x` prints `-0.0000` for a
negative `x` that rounds to zero, a distinct string from `0.0000`). -/
def fmt4 (q : ℚ) : ℚ × Bool := (round4 q, decide (q < 0 ∧ round4 q = 0))

/-- `Vector.__hash__`: the hash is taken of the string `"%.4f %.4f" % (x, y)`;
we model the string (hence the dict/set key identity) by the pair of formatted
coordinates. -/
def hashKey (v : Vec) : (ℚ × Bool) × (ℚ × Bool) := (fmt4 v.x, fmt4 v.y)

/-- Cyclic edge list `zip(v, v[1:]) + [(v[-1], v[0])]`, the idiom the source
uses for every polygon traversal.  Empty input gives no edges (the Python
expression would raise `IndexError` on `v[-1]`). -/
def cyclePairs : List α → List (α × α)
  | [] => []
  | x :: xs => (x :: xs).zip xs ++ [((x :: xs).getLastD x, x)]

/-- Python list indexing `pts[i]` for an index that the source keeps in range;
out of range yields the origin (where Python would raise `IndexError`). -/
def cget (pts : List Vec) (i : Nat) : Vec := pts.getD i ⟨0, 0⟩

/-- `min` over a rational list (first-minimum; 0 on the empty list, where
Python `min` would raise `ValueError`). -/
def minQ : List ℚ → ℚ
  | [] => 0
  | x :: xs => xs.foldl min x

/-- `max` over a rational list (see `minQ`). -/
def maxQ : List ℚ → ℚ
  | [] => 0
  | x :: xs => xs.foldl max x

/-- `min(xs, key=lambda v: (v - d).length_squared)`: first element of minimal
squared distance to `d` (Python `min` keeps the earliest minimum). -/
def minByDist (xs : List Vec) (d : Vec) : Vec :=
  match xs with
  | [] => ⟨0, 0⟩
  | v :: rest =>
      rest.foldl
        (fun m w =>
          if (w - d).length_squared < (m - d).length_squared then w else m) v

/-- `list.remove(x)` under a predicate: drop the first matching element
(no-op when nothing matches, where Python would raise `ValueError`). -/
def removeFirstBy (pred : α → Bool) : List α → List α
  | [] => []
  | x :: xs => if pred x then xs else x :: removeFirstBy pred xs

/-- Python `list == list` on point lists: same length and pairwise
tolerance-equal entries (`Polygon.__eq__` compares the `points` lists). -/
def listVeq (xs ys : List Vec) : Bool :=
  xs.length == ys.length && (xs.zip ys).all fun p => veq p.1 p.2

/-- Stable insertion into a sorted list (used to model Python's stable sort). -/
def insertSorted (le : α → α → Bool) (x : α) : List α → List α
  | [] => [x]
  | y :: ys => if le x y then x :: y :: ys else y :: insertSorted le x ys

/-- Stable sort by the given `le`, modelling Python `sorted` (ties keep their
original relative order). -/
def insSortBy (le : α → α → Bool) : List α → List α
  | [] => []
  | x :: xs => insertSorted le x (insSortBy le xs)

/-- `point_orientation(a, b, c)`: `True` iff the triangle is clockwise
(signed-area test, strict `> 0`; collinear counts as not clockwise). -/
def point_orientation (a b c : Vec) : Bool :=
  decide ((b.x - a.x) * (c.y - a.y) - (c.x - a.x) * (b.y - a.y) > 0)

/-- `point_in_triangle(p, a, b, c)`. -/
def point_in_triangle (p a b c : Vec) : Bool :=
  let t := point_orientation a b c
  point_orientation a b p == t && point_orientation b c p == t &&
    point_orientation a p c == t

/-- `__intersect_line_line_u`: the shared two-line parameter solver; `none`
when the lines are parallel (`d == 0`). -/
def intersect_line_line_u (p1 p2 q1 q2 : Vec) : Option (ℚ × ℚ) :=
  let d := (q2.y - q1.y) * (p2.x - p1.x) - (q2.x - q1.x) * (p2.y - p1.y)
  let n1 := (q2.x - q1.x) * (p1.y - q1.y) - (q2.y - q1.y) * (p1.x - q1.x)
  let n2 := (p2.x - p1.x) * (p1.y - q1.y) - (p2.y - p1.y) * (p1.x - q1.x)
  if d = 0 then none else some (n1 / d, n2 / d)

/-- `intersect_line_line`. -/
def intersect_line_line (p1 p2 q1 q2 : Vec) : Option Vec :=
  match intersect_line_line_u p1 p2 q1 q2 with
  | none => none
  | some ll => some ⟨p1.x + ll.1 * (p2.x - p1.x), p1.y + ll.1 * (p2.y - p1.y)⟩

/-- `intersect_lineseg_ray`: segment parameter in `[0, 1]`, ray parameter
`>= 0`. -/
def intersect_lineseg_ray (p1 p2 q1 q2 : Vec) : Option Vec :=
  match intersect_line_line_u p1 p2 q1 q2 with
  | none => none
  | some ll =>
      if ll.1 < 0 ∨ ll.1 > 1 then none
      else if ll.2 < 0 then none
      else some ⟨p1.x + ll.1 * (p2.x - p1.x), p1.y + ll.1 * (p2.y - p1.y)⟩

/-- `intersect_lineseg_lineseg`: axis-aligned bounding-box rejection, then the
shared solver with both parameters constrained to `[0, 1]`. -/
def intersect_lineseg_lineseg (p1 p2 q1 q2 : Vec) : Option Vec :=
  if max q1.x q2.x < min p1.x p2.x then none
  else if min q1.x q2.x > max p1.x p2.x then none
  else if max q1.y q2.y < min p1.y p2.y then none
  else if min q1.y q2.y > max p1.y p2.y then none
  else
    match intersect_line_line_u p1 p2 q1 q2 with
    | none => none
    | some ll =>
        if ll.1 < 0 ∨ ll.1 > 1 then none
        else if ll.2 < 0 ∨ ll.2 > 1 then none
        else some ⟨p1.x + ll.1 * (p2.x - p1.x), p1.y + ll.1 * (p2.y - p1.y)⟩

/-- `check_intersect_lineseg_lineseg`: the boolean-only existence variant with
the same bounding-box rejection and parameter constraints. -/
def check_intersect_lineseg_lineseg (p1 p2 q1 q2 : Vec) : Bool :=
  if max q1.x q2.x < min p1.x p2.x then false
  else if min q1.x q2.x > max p1.x p2.x then false
  else if max q1.y q2.y < min p1.y p2.y then false
  else if min q1.y q2.y > max p1.y p2.y then false
  else
    match intersect_line_line_u p1 p2 q1 q2 with
    | none => false
    | some ll =>
        if ll.1 < 0 ∨ ll.1 > 1 then false
        else if ll.2 < 0 ∨ ll.2 > 1 then false
        else true

/-- `distance_point_lineseg_squared(p, a, b)`, with the source's
`r = (p-a)·(b-a) / |b-a|²` written out at each use.  When `a = b` exactly the
Python code divides by zero (`ZeroDivisionError`, a documented caller
precondition); over `ℚ` the division is total and yields `r = 0`. -/
def distance_point_lineseg_squared (p a b : Vec) : ℚ :=
  if Vec.dot (p - a) (b - a) / (b - a).length_squared ≤ 0 then
    (p - a).length_squared
  else if Vec.dot (p - a) (b - a) / (b - a).length_squared ≥ 1 then
    (p - b).length_squared
  else
    ((a.y - p.y) * (b.x - a.x) - (a.x - p.x) * (b.y - a.y)) *
        ((a.y - p.y) * (b.x - a.x) - (a.x - p.x) * (b.y - a.y)) /
      (b - a).length_squared

/-- Spec-side definition: the projection parameter `r` of `p` onto the line
through `a` and `b`, as described in the specification of
`segment_distance_squared`. -/
def projParam (p a b : Vec) : ℚ := Vec.dot (p - a) (b - a) / (b - a).length_squared

/-- Spec-side definition: the foot of the perpendicular from `p` onto the line
through `a` and `b`. -/
def footPoint (p a b : Vec) : Vec := a + (b - a).smul (projParam p a b)

/-- `intersect_linesegs_ray(segs, p1, p2)`. -/
def intersect_linesegs_ray (segs : List (Vec × Vec)) (p1 p2 : Vec) : List Vec :=
  segs.filterMap fun s => intersect_lineseg_ray s.1 s.2 p1 p2

/-- `intersect_poly_ray(poly_points, p1, p2)`. -/
def intersect_poly_ray (poly_points : List Vec) (p1 p2 : Vec) : List Vec :=
  intersect_linesegs_ray (cyclePairs poly_points) p1 p2

/-- Python `set(...)` over Vectors: keep the first representative of each
class; two vectors occupy the same set slot iff their hashes (`hashKey`) agree
and they compare equal (`veq`). -/
def pySetDedup (xs : List Vec) : List Vec :=
  xs.foldl
    (fun acc x =>
      if acc.any (fun y => hashKey y = hashKey x ∧ veq y x) then acc
      else acc ++ [x]) []

/-- `Polygon.contains_point_s(pts, p)`: 2 on the boundary, else ray casting
with glancing-vertex filtering, 1 inside (odd crossings), 0 outside. -/
def contains_point_s (pts : List Vec) (p : Vec) : Nat :=
  if (cyclePairs pts).any
      (fun ab => distance_point_lineseg_squared p ab.1 ab.2 < EPSILON * EPSILON)
  then 2
  else
    let inters := pySetDedup (intersect_poly_ray pts p (p + VECTOR_X))
    let n := pts.length
    let kept := inters.filter fun ip =>
      !(pts.any (fun q => veq q ip) &&
        (let i := (pts.findIdx? (fun q => veq q ip)).getD 0
         let prv := cget pts ((i + n - 1) % n)
         let nxt := cget pts ((i + 1) % n)
         point_orientation p ip nxt == point_orientation p ip prv))
    if kept.length % 2 = 1 then 1 else 0

/-- `Polygon.simplify_sequence` working loop (index `i` as in the source;
`del seq[i]` re-tests the same index, otherwise the index advances). -/
def simplifyAux (seq : List Vec) (i : Nat) : List Vec :=
  if h : i < seq.length then
    let n := seq.length
    let p := cget seq ((i + n - 1) % n)
    let c := cget seq i
    let nx := cget seq ((i + 1) % n)
    if veq p c || veq c nx || veq p nx ||
        decide (distance_point_lineseg_squared c p nx < EPSILON) then
      simplifyAux (seq.eraseIdx i) i
    else
      simplifyAux seq (i + 1)
  else seq
termination_by seq.length - i
decreasing_by
  · have hlt : (seq.eraseIdx i).length = seq.length - 1 := by
      simpa using List.length_eraseIdx_of_lt h
    omega
  · omega

/-- `Polygon.simplify_sequence(seq)`. -/
def simplify_sequence (seq : List Vec) : List Vec := simplifyAux seq 0

/-- `Polygon.is_clockwise_s(pts)`: orientation of the neighbour triple at the
first vertex of minimal x. -/
def is_clockwise_s (pts : List Vec) : Bool :=
  let n := pts.length
  let i_min := (List.range n).foldl
    (fun best i => if (cget pts i).x < (cget pts best).x then i else best) 0
  point_orientation (cget pts ((i_min + n - 1) % n)) (cget pts i_min)
    (cget pts ((i_min + 1) % n))

/-- `Polygon.is_convex_s(poly_points)`: the orientation of
`(last, first, second)` is the reference; every consecutive triple (indices
`1` to `len - 1`) must match it. -/
def is_convex_s (pts : List Vec) : Bool :=
  (List.range' 1 (pts.length - 1)).all fun i =>
    point_orientation (cget pts (i - 1)) (cget pts i)
        (cget pts ((i + 1) % pts.length)) ==
      point_orientation (cget pts (pts.length - 1)) (cget pts 0) (cget pts 1)

/-- `Polygon.is_self_intersecting`: any non-adjacent edge pair that passes the
boolean intersection check. -/
def is_self_intersecting (pts : List Vec) : Bool :=
  let n := pts.length
  (List.range n).any fun i =>
    (List.range' (i + 1) (n - (i + 1))).any fun j =>
      let a := cget pts i
      let b := cget pts ((i + 1) % n)
      let c := cget pts j
      let d := cget pts ((j + 1) % n)
      !(veq b c || veq d a) && check_intersect_lineseg_lineseg a b c d

/-- The winding-number accumulation from `Polygon.offset`: rightward-ray
crossings over every loop in `raw`, `-1` for upward edges, `+1` for downward
edges (both conditionals are applied in source order). -/
def winding_number (p : Vec) (raw : List (List Vec)) : Int :=
  raw.foldl
    (fun wn pp =>
      (cyclePairs pp).foldl
        (fun wn ab =>
          let a := ab.1
          let b := ab.2
          let wn1 :=
            if a.y < p.y ∧ b.y > p.y then
              match intersect_lineseg_ray a b p (p + VECTOR_X) with
              | some i => if i.x > p.x then wn - 1 else wn
              | none => wn
            else wn
          if a.y > p.y ∧ b.y < p.y then
            match intersect_lineseg_ray a b p (p + VECTOR_X) with
            | some i => if i.x > p.x then wn1 + 1 else wn1
            | none => wn1
          else wn1)
        wn)
    0

/-- `find_point_in_poly(pts)` from `Polygon.offset`: centroid for a triangle;
otherwise pick the first vertex `v` whose neighbour triple is not clockwise
(falling back to the last loop iteration's triple when none is found, as the
Python loop variables leak), collect the points strictly inside triangle
`a v b` that are not tolerance-equal to its corners, and return the midpoint
of the shortest diagonal, or the midpoint of `a b` when there is none. -/
def find_point_in_poly (pts : List Vec) : Vec :=
  if pts.length = 3 then
    (cget pts 0 + cget pts 1 + cget pts 2).divScalar 3
  else
    let n := pts.length
    let i :=
      match (List.range n).find?
          (fun i =>
            !point_orientation (cget pts ((i + n - 1) % n)) (cget pts i)
              (cget pts ((i + 1) % n))) with
      | some i => i
      | none => n - 1
    let a := cget pts ((i + n - 1) % n)
    let v := cget pts i
    let b := cget pts ((i + 1) % n)
    let q_s := pts.filter fun q =>
      !(veq q a || veq q v || veq q b) && point_in_triangle q a v b
    match q_s with
    | [] => (b - a).divScalar 2 + a
    | q0 :: rest =>
        let q := rest.foldl
          (fun m w =>
            if (w - v).length_squared < (m - v).length_squared then w else m) q0
        (q - v).divScalar 2 + v

/-- The inclusion test of `Polygon.offset`'s output loop:
`(amount < 0 and wn > 0) or (amount > 0 and wn == 1)` (the literal `False or`
prefix in the source is inert). -/
def keep_condition (amount : ℚ) (wn : Int) : Prop :=
  (amount < 0 ∧ wn > 0) ∨ (amount > 0 ∧ wn = 1)

instance (amount : ℚ) (wn : Int) : Decidable (keep_condition amount wn) := by
  unfold keep_condition; infer_instance

/-- The output loop of `Polygon.offset` (source lines building `output` from
`raw`): each loop is simplified in place — so later winding numbers are taken
against the list in which every earlier loop has already been simplified —
then its interior point's winding number against the current `raw` decides
inclusion.  `done` is the already-processed (simplified) prefix. -/
def output_filter (amount : ℚ) : List (List Vec) → List (List Vec) → List (List Vec)
  | _, [] => []
  | done, poly :: rest =>
    if keep_condition amount
        (winding_number (find_point_in_poly (simplify_sequence poly))
          (done ++ simplify_sequence poly :: rest)) then
      simplify_sequence poly :: output_filter amount (done ++ [simplify_sequence poly]) rest
    else output_filter amount (done ++ [simplify_sequence poly]) rest

/-- `Vector.normalize` with the square root supplied as `sqrtQ`. -/
def normalizeW (sqrtQ : ℚ → ℚ) (v : Vec) : Vec :=
  v.divScalar (sqrtQ v.length_squared)

/-- `offset_poly(poly)` from `Polygon.offset`: the raw offset contour. -/
def offset_poly (sqrtQ : ℚ → ℚ) (tip : Vec → Vec → Vec → Vec → Bool → List Vec)
    (amount : ℚ) (pts : List Vec) : List Vec :=
  (List.range pts.length).foldl
    (fun r i =>
      let n := pts.length
      let c := cget pts i
      let nx := cget pts ((i + 1) % n)
      let n2 := cget pts ((i + 2) % n)
      let is_cvx := point_orientation c nx n2
      let un := normalizeW sqrtQ (nx - c).normal
      let un2 := normalizeW sqrtQ (n2 - nx).normal
      let c' := c + un.smul amount
      let n' := nx + un.smul amount
      let n2' := n2 + un2.smul amount
      let n'2 := nx + un2.smul amount
      let r := r ++ [c', n']
      if is_cvx == decide (amount > 0) then r ++ [nx]
      else r ++ tip c' n' n'2 n2' true)
    []

/-- `tip_decorator_flat`. -/
def tip_decorator_flat (_a _b _c _d : Vec) (_is_cw : Bool) : List Vec := []

/-- `tip_decorator_pointy`: inserts the line-line intersection of the two
offset edges.  (When the lines are parallel the Python version puts `None`
into the point list, which crashes downstream; the model inserts nothing.) -/
def tip_decorator_pointy (a b c d : Vec) (_is_cw : Bool) : List Vec :=
  match intersect_line_line a b c d with
  | some i => [i]
  | none => []

/-- Dict-key equality for the segment keys of `decompose`'s intersection map:
Python tuple keys compare by component hash and `==`. -/
def segKeyEq (k1 k2 : Vec × Vec) : Bool :=
  decide (hashKey k1.1 = hashKey k2.1) && veq k1.1 k2.1 &&
    decide (hashKey k1.2 = hashKey k2.2) && veq k1.2 k2.2

/-- Append an intersection point under its segment key, preserving first-key
insertion order (models `defaultdict(list)` writes). -/
def assocAdd (m : List ((Vec × Vec) × List Vec)) (k : Vec × Vec) (x : Vec) :
    List ((Vec × Vec) × List Vec) :=
  match m with
  | [] => [(k, [x])]
  | (k', xs) :: rest =>
      if segKeyEq k' k then (k', xs ++ [x]) :: rest
      else (k', xs) :: assocAdd rest k x

/-- `inorder_extend(v, v1, v2, ints)` from `decompose` inside `Polygon.offset`:
sort the intersection points along the segment direction and insert them all
at the position of `v2` (sequential insertion at a fixed index reverses the
sorted list, which the `reverse` flag anticipates).  When `v2` is not found
the source asserts; the model inserts at the front. -/
def inorder_extend_d (v : List Vec) (v1 v2 : Vec) (ints : List Vec) : List Vec :=
  let key : Vec → ℚ :=
    if v1.x < v2.x then fun i => i.x
    else if v1.x > v2.x then fun i => i.x
    else fun i => i.y
  let rev : Bool :=
    if v1.x < v2.x then true
    else if v1.x > v2.x then false
    else if v1.y < v2.y then true
    else false
  let le : Vec → Vec → Bool :=
    if rev then fun a b => decide (key b ≤ key a) else fun a b => decide (key a ≤ key b)
  let l := insSortBy le ints
  let i := (v.findIdx? (fun p => veq p v2)).getD 0
  v.take i ++ l.reverse ++ v.drop i

/-- The self-intersection collection of `decompose`: for every index pair
`i < j`, intersect edge `i` with edge `j` and record a hit that is not a
shared endpoint under both segment keys. -/
def decompose_events (pts : List Vec) : List ((Vec × Vec) × Vec) :=
  let n := pts.length
  ((List.range n).map fun i =>
    ((List.range' (i + 1) (n - (i + 1))).map fun j =>
      let a := cget pts i
      let b := cget pts ((i + 1) % n)
      let c := cget pts j
      let d := cget pts ((j + 1) % n)
      match intersect_lineseg_lineseg a b c d with
      | some x =>
          if !(veq x a || veq x b || veq x c || veq x d) then
            [((a, b), x), ((c, d), x)]
          else []
      | none => []).flatten).flatten

/-- One pass of the loop-peeling scan in `decompose`: walk `pts + [pts[0]]`
collecting unseen points until one repeats; return the seen list and the
repeating point. -/
def buildSeenAux (seen : List Vec) : List Vec → List Vec × Option Vec
  | [] => (seen, none)
  | p :: rest =>
      if seen.any (veq p) then (seen, some p)
      else buildSeenAux (seen ++ [p]) rest

/-- The `while pts:` loop of `decompose`: peel one cyclic loop per iteration
and remove its points.  Fuel bounds the iterations (each genuine iteration
removes at least one point, so the initial length suffices). -/
def decomposeLoop : Nat → List Vec → List (List Vec) → List (List Vec)
  | 0, _, out => out
  | _ + 1, [], out => out
  | fuel + 1, p0 :: pts', out =>
      match buildSeenAux [] ((p0 :: pts') ++ [p0]) with
      | (seen, some pbrk) =>
          let k := (seen.findIdx? (fun q => veq q pbrk)).getD 0
          let loop := seen.drop k
          let rest := loop.foldl
            (fun acc v => removeFirstBy (fun w => veq w v) acc) (p0 :: pts')
          decomposeLoop fuel rest (out ++ [loop])
      | (_, none) => out

/-- `decompose(poly_points)` from `Polygon.offset`: inject self-intersection
points in order along each edge, then peel simple loops. -/
def decompose (poly_points : List Vec) : List (List Vec) :=
  let m := (decompose_events poly_points).foldl
    (fun m e => assocAdd m e.1 e.2) []
  let pts := m.foldl (fun v e => inorder_extend_d v e.1.1 e.1.2 e.2) poly_points
  decomposeLoop (pts.length + 1) pts []

/-- `Polygon.offset(polys, amount, tip_decorator)`: zero amount echoes the
input; otherwise build raw offset contours, decompose them into simple loops
and filter by winding number.  (The Python entry also wraps a single polygon
into a one-element list, a dynamic-typing detail outside this typed model.) -/
def offset (sqrtQ : ℚ → ℚ) (tip : Vec → Vec → Vec → Vec → Bool → List Vec)
    (polys : List (List Vec)) (amount : ℚ) : List (List Vec) :=
  if amount = 0 then polys
  else
    let raw := (polys.map fun poly => decompose (offset_poly sqrtQ tip amount poly)).flatten
    output_filter amount [] raw

/-- List containment of characters used to model Python's substring test. -/
def startsWithChars : List Char → List Char → Bool
  | [], _ => true
  | _ :: _, [] => false
  | a :: as, b :: bs => a == b && startsWithChars as bs

/-- Python `s in t` for strings: `s` occurs as a contiguous substring of `t`
(the empty string is a substring of everything). -/
def substringOf (s : List Char) : List Char → Bool
  | [] => startsWithChars s []
  | c :: t => startsWithChars s (c :: t) || substringOf s t

/-- The tag validation of `Polygon.boolean_operation`:
`operation not in 'uid' or len(operation) > 1` raises `ValueError`. -/
def boolean_operation_rejects (operation : List Char) : Bool :=
  !substringOf operation ['u', 'i', 'd'] || decide (operation.length > 1)

/-- `fragment_type_a = 1 if operation == 'i' else 0` — the classification tag
ring A's fragments must carry. -/
def fragment_type_a (operation : Char) : Nat := if operation = 'i' then 1 else 0

/-- `fragment_type_b = 1 if operation != 'u' else 0` — the classification tag
ring B's fragments must carry. -/
def fragment_type_b (operation : Char) : Nat := if operation ≠ 'u' then 1 else 0

/-- `extend_fragments(v, poly, fragment_type)` from
`Polygon.boolean_operation`, with the retained directed fragments returned as
a list instead of being appended to the shared `edge_fragments` dict. -/
def extend_fragments (v : List (Vec × Nat)) (poly : List Vec)
    (fragment_type : Nat) : List (Vec × Vec) :=
  (cyclePairs v).filterMap fun e =>
    let v1 := e.1
    let v2 := e.2
    if v1.2 == fragment_type || v2.2 == fragment_type then some (v1.1, v2.1)
    else if v1.2 == 2 && v2.2 == 2 then
      let m := (v1.1 + v2.1).divScalar 2
      let t := contains_point_s poly m
      if t == fragment_type || t == 2 then some (v1.1, v2.1) else none
    else none

/-- Working state of `Polygon.convex_decompose`: the mutable vertex list `p`,
the emitted pieces `out`, and the pending hole list. -/
structure DState where
  p : List Vec
  out : List (List Vec)
  holes : List (List Vec)
deriving Repr

/-- `is_notch(i)` on a vertex list: the neighbour triple at `i` is not
clockwise (Python's `p[i-1]` wraps at `i = 0`). -/
def is_notch (p : List Vec) (i : Nat) : Bool :=
  !point_orientation (cget p ((i + p.length - 1) % p.length)) (cget p i)
    (cget p ((i + 1) % p.length))

/-- `check_decomp(l, p_minus_l, p)`: at least one diagonal endpoint is a
notch, the candidate chain is convex, and no notch of the remainder that lies
in the chain's bounding box is strictly inside the chain.  (The source's
`if pts:` tests a generator object, which is always truthy, so the dead
`else` branch is not modelled.) -/
def check_decomp (l p_minus_l : List Nat) (p : List Vec) : Bool :=
  let l_v := l.map (cget p)
  let xes := l_v.map Vec.x
  let x_min := minQ xes
  let x_max := maxQ xes
  let yes := l_v.map Vec.y
  let y_min := minQ yes
  let y_max := maxQ yes
  if !(is_notch p (l.headD 0) || is_notch p (l.getLastD 0)) then false
  else if !is_convex_s l_v then false
  else
    !(p_minus_l.any fun v =>
      let pv := cget p v
      decide (pv.x ≤ x_max) && decide (x_min ≤ pv.x) &&
        decide (pv.y ≤ y_max) && decide (y_min ≤ pv.y) && is_notch p v &&
        (contains_point_s l_v pv == 1))

/-- The first shrink loop of `try_decompose`: pop indices from the end of `l`
(prepending them to `p_minus_l`) until the decomposition checks or `l` is too
short. -/
def shrinkEnd (p : List Vec) (l p_minus_l : List Nat) : List Nat × List Nat :=
  if h : 2 < l.length ∧ check_decomp l p_minus_l p = false then
    shrinkEnd p l.dropLast (l.getLastD 0 :: p_minus_l)
  else (l, p_minus_l)
termination_by l.length
decreasing_by
  rw [List.length_dropLast]
  omega

/-- The second shrink loop of `try_decompose`: drop indices from the start of
`l` (appending them to `p_minus_l`). -/
def shrinkStart (p : List Vec) (l p_minus_l : List Nat) : List Nat × List Nat :=
  if h : 2 < l.length ∧ check_decomp l p_minus_l p = false then
    shrinkStart p l.tail (p_minus_l ++ [l.headD 0])
  else (l, p_minus_l)
termination_by l.length
decreasing_by
  rw [List.length_tail]
  omega

/-- `absorb_hole(d_b, closest_hole, d_a)`: remove the hole from the pending
list (Python `list.remove` drops the first `==`-equal hole), wind it
counter-clockwise, and splice `[d_b] + hole[i:] + hole[:i+1]` into `p` at the
index of `d_b` (both index lookups use tolerance equality and are found in
every reachable call). -/
def absorbHole (st : DState) (d_b : Vec) (hole : List Vec) (d_a : Vec) : DState :=
  let holes' := removeFirstBy (fun h => listVeq h hole) st.holes
  let hole' := if is_clockwise_s hole then hole.reverse else hole
  let i := (hole'.findIdx? fun v => veq v d_a).getD 0
  let j := (st.p.findIdx? fun v => veq v d_b).getD 0
  let ext := [d_b] ++ hole'.drop i ++ hole'.take (i + 1)
  { st with p := st.p.take j ++ ext ++ st.p.drop j, holes := holes' }

/-- Accumulator of `handle_holes`' intersection search: the closest
intersection so far, the moving diagonal start `d_a`, the matched hole, and
the `intersecting` flag of the current pass. -/
structure HHAcc where
  ci : Option Vec
  d_a : Vec
  ch : Option (List Vec)
  intersecting : Bool

/-- One hole edge of a `handle_holes` pass: segment-intersect the diagonal
`d_a d_b` against the edge; a hit that is not an edge endpoint is recorded if
closer to `d_b` than the best so far (updating `d_a` to the closer edge
endpoint) and always sets `intersecting`. -/
def hhEdge (d_b : Vec) (hole : List Vec) (acc : HHAcc) (ab : Vec × Vec) : HHAcc :=
  match intersect_lineseg_lineseg acc.d_a d_b ab.1 ab.2 with
  | none => acc
  | some i =>
      if !(veq i ab.1 || veq i ab.2) then
        if (match acc.ci with
            | none => true
            | some c0 =>
                decide ((c0 - d_b).length_squared > (i - d_b).length_squared)) then
          { ci := some i,
            d_a :=
              if (ab.1 - d_b).length_squared ≤ (ab.2 - d_b).length_squared then ab.1
              else ab.2,
            ch := some hole,
            intersecting := true }
        else { acc with intersecting := true }
      else acc

/-- One full pass of `handle_holes`' `while intersecting:` loop over every
edge of every pending hole (the flag is reset at the start of the pass; `d_a`
updates mid-pass, as in the source). -/
def hhPass (d_b : Vec) (holes : List (List Vec)) (acc : HHAcc) : HHAcc :=
  holes.foldl (fun a hole => (cyclePairs hole).foldl (hhEdge d_b hole) a)
    { acc with intersecting := false }

/-- The `while intersecting:` loop of `handle_holes`.  The loop does not
terminate for every input (a pass can keep finding non-improving
intersections), so fuel bounds the passes; `none` models non-termination. -/
def hhLoop (d_b : Vec) (holes : List (List Vec)) : Nat → HHAcc → Option HHAcc
  | 0, _ => none
  | fuel + 1, acc =>
      let acc' := hhPass d_b holes acc
      if acc'.intersecting then hhLoop d_b holes fuel acc' else some acc'

/-- The containment phase of `handle_holes`: when no hole edge crossed the
diagonal, find the closest point of a hole whose first vertex lies inside the
candidate chain `l_v` (the search restarts with no best intersection). -/
def hhContain (l_v : List Vec) (d_b : Vec) (holes : List (List Vec)) (d_a0 : Vec) :
    Option Vec × Vec × Option (List Vec) :=
  holes.foldl
    (fun acc hole =>
      if contains_point_s l_v (hole.headD ⟨0, 0⟩) ≠ 0 then
        let i := minByDist hole d_b
        if (match acc.1 with
            | none => true
            | some c0 =>
                decide ((c0 - d_b).length_squared > (i - d_b).length_squared)) then
          (some i, i, some hole)
        else acc
      else acc)
    (none, d_a0, none)

/-- `handle_holes(l, d_a, d_b)`: absorb the closest crossed hole, else the
closest contained hole; `true` means no hole interfered.  `none` is fuel
exhaustion of the intersection loop. -/
def handleHoles (fuel : Nat) (st : DState) (l_v : List Vec) (d_a d_b : Vec) :
    Option (DState × Bool) :=
  match hhLoop d_b st.holes fuel ⟨none, d_a, none, true⟩ with
  | none => none
  | some acc =>
      match acc.ch with
      | some hole => some (absorbHole st d_b hole acc.d_a, false)
      | none =>
          match hhContain l_v d_b st.holes acc.d_a with
          | (_, da2, some hole) => some (absorbHole st d_b hole da2, false)
          | (_, _, none) => some (st, true)

/-- `handle_holes_convex()`: absorb the hole with the point closest to `p[0]`
(only called with a non-empty hole list, where the match below is `some`). -/
def handleHolesConvex (st : DState) : DState :=
  let d_b := cget st.p 0
  let acc := st.holes.foldl
    (fun (acc : Option Vec × Vec × Option (List Vec)) hole =>
      let i := minByDist hole d_b
      if (match acc.1 with
          | none => true
          | some c0 =>
              decide ((c0 - d_b).length_squared > (i - d_b).length_squared)) then
        (some i, i, some hole)
      else acc)
    (none, ⟨0, 0⟩, none)
  match acc with
  | (_, da, some hole) => absorbHole st d_b hole da
  | (_, _, none) => st

/-- The forward notch search order of `try_decompose`:
`range(i_start+1, len(p)) + range(0, i_start+1)`. -/
def searchSeq1 (i_start n : Nat) : List Nat :=
  List.range' (i_start + 1) (n - (i_start + 1)) ++ List.range (i_start + 1)

/-- The backward notch search order of `try_decompose`:
`range(i_start, -1, -1) + range(len(p)-1, i_start, -1)`. -/
def searchSeq2 (i_start n : Nat) : List Nat :=
  (List.range (i_start + 1)).reverse ++
    (List.range' (i_start + 1) (n - (i_start + 1))).reverse

/-- Result of one `try_decompose` call: fuel exhaustion inside
`handle_holes`, a failed notch search (Python `StopIteration`), or a new
state with the success flag. -/
inductive TDRes where
  | timeout : TDRes
  | searchFail : TDRes
  | ok : DState → Bool → TDRes
deriving Repr

/-- The tail of `try_decompose` after both shrink phases, on the final index
chain `lB`: give up on chains of at most 2 indices (no state change), defer
to hole handling (absorption reports failure so the caller retries), or emit
the convex piece `[p[k] for k in lB]` and delete its interior vertices from
`p` in descending index order. -/
def tryDecomposeTail (fuel : Nat) (st : DState) (lB : List Nat) : TDRes :=
  if lB.length ≤ 2 then .ok st false
  else
    let l_v := lB.map (cget st.p)
    let d_a := cget st.p (lB.headD 0)
    let d_b := cget st.p (lB.getLastD 0)
    match handleHoles fuel st l_v d_a d_b with
    | none => .timeout
    | some (st1, false) => .ok st1 false
    | some (st1, true) =>
        let interior := insSortBy (fun a b => decide (b ≤ a)) (lB.tail.dropLast)
        let pNew := interior.foldl (fun acc v => acc.eraseIdx v) st1.p
        .ok { st1 with p := pNew, out := st1.out ++ [l_v] } true

/-- `try_decompose(i_start)`: find the next notch forward, build the
provisional chain, shrink it from the end; find the previous notch backward,
prepend its chain, shrink from the start; then finish via
`tryDecomposeTail`. -/
def tryDecompose (fuel : Nat) (st : DState) (i_start : Nat) : TDRes :=
  match (searchSeq1 i_start st.p.length).find? (fun i => is_notch st.p i) with
  | none => .searchFail
  | some i_extend =>
      let l0 :=
        if i_start < i_extend then List.range' i_start (i_extend + 1 - i_start)
        else
          List.range' i_start (st.p.length - i_start) ++
            List.range (i_extend + 1)
      let pml0 := (List.range st.p.length).filter fun k => !l0.contains k
      let l1 := (shrinkEnd st.p l0 pml0).1
      match (searchSeq2 i_start st.p.length).find? (fun i => is_notch st.p i) with
      | none => .searchFail
      | some i_extend2 =>
          let l2 :=
            if i_start < i_extend2 then
              List.range' i_extend2 (st.p.length - i_extend2) ++
                List.range i_start
            else List.range' i_extend2 (i_start - i_extend2)
          let lA := l2 ++ l1
          let pml2 := (List.range st.p.length).filter fun k => !lA.contains k
          tryDecomposeTail fuel st (shrinkStart st.p lA pml2).1

/-- Result of the main decomposition loop. -/
inductive LoopRes where
  | timeout : LoopRes
  | searchFail : LoopRes
  | ok : DState → LoopRes
deriving Repr

/-- The main `while len(p) > 3 and not is_convex_s(p):` loop of
`convex_decompose`, with the post-body convex-with-holes absorption and the
`i = i % len(p)` start-index update.  Fuel bounds the iterations. -/
def mainLoop : Nat → DState → Nat → LoopRes
  | 0, _, _ => .timeout
  | fuel + 1, st, i =>
      if 3 < st.p.length ∧ ¬is_convex_s st.p = true then
        match tryDecompose fuel st i with
        | .timeout => .timeout
        | .searchFail => .searchFail
        | .ok st1 success =>
            let i1 := if success then i else i + 1
            let st2 :=
              if is_convex_s st1.p = true ∧ st1.holes ≠ [] then handleHolesConvex st1
              else st1
            mainLoop fuel st2 (i1 % st2.p.length)
      else .ok st

/-- The state entering the main loop: the polygon made clockwise (reversing a
counter-clockwise input), no output yet, and one convex-with-holes absorption
when it applies. -/
def initState (polygon : List Vec) (holes : List (List Vec)) : DState :=
  let poly1 := if is_clockwise_s polygon then polygon else polygon.reverse
  let st0 : DState := ⟨poly1, [], holes⟩
  if is_convex_s st0.p = true ∧ st0.holes ≠ [] then handleHolesConvex st0 else st0

/-- Overall result of `convex_decompose`: fuel exhaustion, the
`StopIteration` of a failed notch search, the final
`raise Exception("There are some points left over: ...")`, or the list of
convex pieces. -/
inductive DecompResult where
  | timeout : DecompResult
  | searchFail : DecompResult
  | leftoverError : List Vec → DecompResult
  | ok : List (List Vec) → DecompResult
deriving Repr

/-- `Polygon.convex_decompose(polygon, holes)`: self-intersecting input gives
`[]`; convex hole-free input is returned as the sole piece; otherwise run the
main loop and emit the remainder as the final piece when it has at least 3
points, raising the leftover error when 1 or 2 points remain. -/
def convex_decompose (fuel : Nat) (polygon : List Vec) (holes : List (List Vec)) :
    DecompResult :=
  if is_self_intersecting polygon = true then .ok []
  else if is_convex_s polygon = true ∧ holes = [] then .ok [polygon]
  else
    match mainLoop fuel (initState polygon holes) 0 with
    | .timeout => .timeout
    | .searchFail => .searchFail
    | .ok st =>
        if 3 ≤ st.p.length then .ok (st.out ++ [st.p])
        else if 0 < st.p.length then .leftoverError st.p
        else .ok st.out

@[simp] theorem Vec.sub_x (a b : Vec) : (a - b).x = a.x - b.x := rfl

@[simp] theorem Vec.sub_y (a b : Vec) : (a - b).y = a.y - b.y := rfl

@[simp] theorem Vec.add_x (a b : Vec) : (a + b).x = a.x + b.x := rfl

@[simp] theorem Vec.add_y (a b : Vec) : (a + b).y = a.y + b.y := rfl

@[simp] theorem Vec.smul_x (v : Vec) (k : ℚ) : (v.smul k).x = v.x * k := rfl

@[simp] theorem Vec.smul_y (v : Vec) (k : ℚ) : (v.smul k).y = v.y * k := rfl

theorem length_squared_ne_zero (a b : Vec) (h : a ≠ b) :
    (b - a).length_squared ≠ 0 := by
  intro h0
  apply h
  unfold Vec.length_squared at h0
  simp only [Vec.sub_x, Vec.sub_y] at h0
  have hx : b.x - a.x = 0 := by
    nlinarith [mul_self_nonneg (b.x - a.x), mul_self_nonneg (b.y - a.y)]
  have hy : b.y - a.y = 0 := by
    nlinarith [mul_self_nonneg (b.x - a.x), mul_self_nonneg (b.y - a.y)]
  obtain ⟨ax, ay⟩ := a
  obtain ⟨bx, byy⟩ := b
  dsimp only at hx hy
  simp only [Vec.mk.injEq]
  exact ⟨by linarith, by linarith⟩

/-- C6: for every four points, the boolean existence check
`check_intersect_lineseg_lineseg` returns `true` exactly when
`intersect_lineseg_lineseg` produces a point: same bounding-box rejection,
same parallel-line case, same parameter-range constraints. -/
theorem check_intersect_lineseg_lineseg_eq_isSome (p1 p2 q1 q2 : Vec) :
    check_intersect_lineseg_lineseg p1 p2 q1 q2 =
      (intersect_lineseg_lineseg p1 p2 q1 q2).isSome := by
  unfold check_intersect_lineseg_lineseg intersect_lineseg_lineseg
  split_ifs <;> try rfl
  cases intersect_line_line_u p1 p2 q1 q2 with
  | none => rfl
  | some ll =>
      dsimp only
      split_ifs <;> rfl

/-- C7: for `a != b`, `distance_point_lineseg_squared` computes the projection
parameter `r = (p-a)·(b-a)/|b-a|²` and returns `|p-a|²` when `r ≤ 0`, `|p-b|²`
when `r ≥ 1`, and otherwise the squared distance from `p` to the foot of its
perpendicular on the line through `a` and `b` (the foot really is the
orthogonal projection).  The `a = b` degeneracy is a caller precondition: the
source divides by zero there, unguarded. -/
theorem distance_point_lineseg_squared_spec (p a b : Vec) (hab : a ≠ b) :
    (projParam p a b ≤ 0 →
      distance_point_lineseg_squared p a b = (p - a).length_squared) ∧
    (projParam p a b ≥ 1 →
      distance_point_lineseg_squared p a b = (p - b).length_squared) ∧
    (0 < projParam p a b → projParam p a b < 1 →
      Vec.dot (p - footPoint p a b) (b - a) = 0 ∧
      distance_point_lineseg_squared p a b =
        (p - footPoint p a b).length_squared) := by
  have hL : (b - a).length_squared ≠ 0 := length_squared_ne_zero a b hab
  refine ⟨?_, ?_, ?_⟩
  · intro hr
    unfold projParam at hr
    unfold distance_point_lineseg_squared
    rw [if_pos hr]
  · intro hr
    unfold projParam at hr
    unfold distance_point_lineseg_squared
    rw [if_neg (by intro hc; linarith), if_pos hr]
  · intro hr0 hr1
    unfold projParam at hr0 hr1
    constructor
    · unfold footPoint projParam Vec.dot Vec.length_squared at *
      simp only [Vec.sub_x, Vec.sub_y, Vec.add_x, Vec.add_y, Vec.smul_x,
        Vec.smul_y] at *
      field_simp
      ring
    · unfold distance_point_lineseg_squared
      rw [if_neg (by intro hc; linarith), if_neg (by intro hc; linarith)]
      unfold footPoint projParam Vec.dot Vec.length_squared at *
      simp only [Vec.sub_x, Vec.sub_y, Vec.add_x, Vec.add_y, Vec.smul_x,
        Vec.smul_y] at *
      field_simp
      ring

/-- Witness for C7 at `p = (1,1)`, `a = (0,0)`, `b = (2,0)`: the projection
parameter is `1/2`, strictly between 0 and 1, and the returned value is the
squared distance to the perpendicular foot. -/
theorem distance_point_lineseg_squared_spec_witness :
    distance_point_lineseg_squared ⟨1, 1⟩ ⟨0, 0⟩ ⟨2, 0⟩ =
      ((⟨1, 1⟩ : Vec) - footPoint ⟨1, 1⟩ ⟨0, 0⟩ ⟨2, 0⟩).length_squared :=
  ((distance_point_lineseg_squared_spec ⟨1, 1⟩ ⟨0, 0⟩ ⟨2, 0⟩ (by decide)).2.2
    (by norm_num [projParam, Vec.dot, Vec.length_squared])
    (by norm_num [projParam, Vec.dot, Vec.length_squared])).2

theorem round4_eq_abs_le (a b : ℚ) (h : round4 a = round4 b) :
    |a - b| ≤ 1 / 10000 := by
  unfold round4 at h
  have hk : round (a * 10000) = round (b * 10000) := by
    have h' : ((round (a * 10000) : ℤ) : ℚ) = ((round (b * 10000) : ℤ) : ℚ) := by
      field_simp at h
      exact_mod_cast h
    exact_mod_cast h'
  have ha : |a * 10000 - (round (a * 10000) : ℚ)| ≤ 1 / 2 := abs_sub_round _
  have hb : |b * 10000 - (round (b * 10000) : ℚ)| ≤ 1 / 2 := abs_sub_round _
  rw [hk] at ha
  have habs : |a * 10000 - b * 10000| ≤ 1 := by
    calc |a * 10000 - b * 10000|
        = |(a * 10000 - (round (b * 10000) : ℚ)) +
            ((round (b * 10000) : ℚ) - b * 10000)| := by ring_nf
      _ ≤ |a * 10000 - (round (b * 10000) : ℚ)| +
            |(round (b * 10000) : ℚ) - b * 10000| := abs_add _ _
      _ ≤ 1 / 2 + 1 / 2 := by
          have hb' : |(round (b * 10000) : ℚ) - b * 10000| ≤ 1 / 2 := by
            rw [abs_sub_comm]; exact hb
          exact add_le_add ha hb'
      _ = 1 := by norm_num
  have : |a - b| * 10000 ≤ 1 := by
    calc |a - b| * 10000 = |a - b| * |(10000 : ℚ)| := by norm_num
      _ = |(a - b) * 10000| := (abs_mul _ _).symm
      _ = |a * 10000 - b * 10000| := by ring_nf
      _ ≤ 1 := habs
  linarith

/-- C9 (amended): hash-equal vectors quantize to the same 1/10000 grid point,
so their coordinates differ by at most `1/10000` in each component; in
particular exactly equal vectors always share a hash.  (Tolerance equality
does not imply hash equality: see the counterexample.) -/
theorem vec_hash_collision_bound (v w : Vec) (h : hashKey v = hashKey w) :
    |v.x - w.x| ≤ 1 / 10000 ∧ |v.y - w.y| ≤ 1 / 10000 := by
  unfold hashKey fmt4 at h
  rw [Prod.mk.injEq, Prod.mk.injEq, Prod.mk.injEq] at h
  exact ⟨round4_eq_abs_le _ _ h.1.1, round4_eq_abs_le _ _ h.2.1⟩

/-- Witness for the amended C9 statement at `v = w = (0, 0)`. -/
theorem vec_hash_collision_bound_witness :
    |(0 : ℚ) - 0| ≤ 1 / 10000 ∧ |(0 : ℚ) - 0| ≤ 1 / 10000 :=
  vec_hash_collision_bound ⟨0, 0⟩ ⟨0, 0⟩ rfl

/-- C9 (counterexample): `(0,0)` and `(0.00009, 0)` are tolerance-equal under
`Vector.__eq__` (`0.00009 < 0.0001`), yet their `"%.4f"`-quantized hash keys
differ (`0.0000` vs `0.0001`), so tolerance-equal vectors do not always
collide to the same fragment-graph key. -/
theorem vec_eq_hash_inconsistent :
    veq ⟨0, 0⟩ ⟨9 / 100000, 0⟩ = true ∧
      hashKey ⟨0, 0⟩ ≠ hashKey ⟨9 / 100000, 0⟩ := by
  constructor
  · simp only [veq, EPSILON, decide_eq_true_eq]
    constructor
    · rw [show ((⟨0, 0⟩ : Vec).x - (⟨9 / 100000, 0⟩ : Vec).x) = -(9 / 100000) by
        norm_num, abs_neg, abs_of_nonneg (by norm_num)]
      norm_num
    · norm_num
  · intro h
    have h1 : round4 (0 : ℚ) = round4 (9 / 100000 : ℚ) := by
      have := congrArg (fun k => k.1.1) h
      simpa [hashKey, fmt4] using this
    unfold round4 at h1
    have e0 : round ((0 : ℚ) * 10000) = 0 := by norm_num
    have e9 : round ((9 / 100000 : ℚ) * 10000) = 1 := by norm_num [round_eq]
    rw [e0, e9] at h1
    norm_num at h1

/-- C1 (counterexample): for the difference operation the code sets ring B's
required classification tag to 1 ("inside-A"), not 0 ("outside-A") as the
claim states (`fragment_type_b = 1 if operation != 'u' else 0`). -/
theorem fragment_type_b_difference_counterexample :
    fragment_type_b 'd' = 1 ∧ fragment_type_b 'd' ≠ 0 := by
  constructor
  · rfl
  · intro h
    simp [fragment_type_b] at h

/-- C1 (amended): over the three valid operation tags, ring A's required tag
is "inside" (1) exactly for intersection, while ring B's required tag is
"inside" (1) for intersection AND difference — ring B keeps "outside" (0)
fragments only for union. -/
theorem fragment_types_truth_table :
    ∀ op : Char, op = 'u' ∨ op = 'i' ∨ op = 'd' →
      (fragment_type_a op = 1 ↔ op = 'i') ∧
      (fragment_type_b op = 1 ↔ (op = 'i' ∨ op = 'd')) ∧
      (fragment_type_b op = 0 ↔ op = 'u') := by
  rintro op (rfl | rfl | rfl) <;> simp [fragment_type_a, fragment_type_b]

/-- Witness for the amended C1 statement at the difference tag. -/
theorem fragment_types_truth_table_witness :
    fragment_type_b 'd' = 1 ↔ ('d' = 'i' ∨ 'd' = 'd') :=
  (fragment_types_truth_table 'd' (Or.inr (Or.inr rfl))).2.1

/-- C2: evaluation of the tag validation
(`operation not in 'uid' or len(operation) > 1`).  The three valid tags pass;
a wrong single character and a multi-character substring are rejected; but the
empty tag is NOT rejected (the empty string is a substring of `'uid'` and has
length 0), contradicting the claim that every tag other than 'u', 'i', 'd'
raises InvalidArgument. -/
theorem boolean_operation_tag_check_eval :
    boolean_operation_rejects [] = false ∧
    boolean_operation_rejects ['u'] = false ∧
    boolean_operation_rejects ['i'] = false ∧
    boolean_operation_rejects ['d'] = false ∧
    boolean_operation_rejects ['x'] = true ∧
    boolean_operation_rejects ['u', 'i'] = true := by
  refine ⟨rfl, rfl, rfl, rfl, ?_, rfl⟩
  decide

/-- C8: offsetting by amount 0 returns the input polygon list itself,
value-equal and untouched, for every square-root realization, every
tip-decoration strategy and every polygon list. -/
theorem offset_zero_identity (sqrtQ : ℚ → ℚ)
    (tip : Vec → Vec → Vec → Vec → Bool → List Vec)
    (polys : List (List Vec)) : offset sqrtQ tip polys 0 = polys := by
  unfold offset
  simp

theorem output_filter_mem (amount : ℚ) (todo : List (List Vec)) :
    ∀ (done : List (List Vec)) (q : List Vec),
      q ∈ output_filter amount done todo ↔
        ∃ pre poly post, todo = pre ++ poly :: post ∧
          q = simplify_sequence poly ∧
          keep_condition amount
            (winding_number (find_point_in_poly q)
              (done ++ pre.map simplify_sequence ++ q :: post)) := by
  induction todo with
  | nil =>
      intro done q
      simp [output_filter]
  | cons poly rest ih =>
      intro done q
      rw [output_filter]
      by_cases hk : keep_condition amount
          (winding_number (find_point_in_poly (simplify_sequence poly))
            (done ++ simplify_sequence poly :: rest))
      · rw [if_pos hk]
        constructor
        · intro hq
          rcases List.mem_cons.mp hq with hq | hq
          · exact ⟨[], poly, rest, rfl, hq, by
              subst hq
              simpa using hk⟩
          · obtain ⟨pre, poly2, post, hrest, hq2, hc⟩ :=
              (ih (done ++ [simplify_sequence poly]) q).mp hq
            refine ⟨poly :: pre, poly2, post, by simp [hrest], hq2, ?_⟩
            simpa [List.append_assoc] using hc
        · rintro ⟨pre, poly2, post, htodo, hq2, hc⟩
          cases pre with
          | nil =>
              simp only [List.nil_append, List.cons.injEq] at htodo
              obtain ⟨h1, h2⟩ := htodo
              subst h1
              subst h2
              rw [hq2]
              exact List.mem_cons_self _ _
          | cons p0 pre' =>
              simp only [List.cons_append, List.cons.injEq] at htodo
              obtain ⟨h1, h2⟩ := htodo
              subst h1
              refine List.mem_cons.mpr (Or.inr ?_)
              refine (ih (done ++ [simplify_sequence poly]) q).mpr
                ⟨pre', poly2, post, h2, hq2, ?_⟩
              simpa [List.append_assoc] using hc
      · rw [if_neg hk]
        constructor
        · intro hq
          obtain ⟨pre, poly2, post, hrest, hq2, hc⟩ :=
            (ih (done ++ [simplify_sequence poly]) q).mp hq
          refine ⟨poly :: pre, poly2, post, by simp [hrest], hq2, ?_⟩
          simpa [List.append_assoc] using hc
        · rintro ⟨pre, poly2, post, htodo, hq2, hc⟩
          cases pre with
          | nil =>
              exfalso
              simp only [List.nil_append, List.cons.injEq] at htodo
              obtain ⟨h1, h2⟩ := htodo
              subst h1
              subst h2
              subst hq2
              exact hk (by simpa using hc)
          | cons p0 pre' =>
              simp only [List.cons_append, List.cons.injEq] at htodo
              obtain ⟨h1, h2⟩ := htodo
              subst h1
              refine (ih (done ++ [simplify_sequence poly]) q).mpr
                ⟨pre', poly2, post, h2, hq2, ?_⟩
              simpa [List.append_assoc] using hc

/-- C3: a decomposed loop is included in `Polygon.offset`'s output exactly
when `(amount < 0 and wn > 0) or (amount > 0 and wn == 1)`, where `wn` is the
winding number of the loop's chosen interior point (`find_point_in_poly` of
the simplified loop) against all raw loops; loops with any other winding
number are discarded.  Because the source simplifies each loop in place
inside the list it iterates, the winding context at the step for `poly` is
the raw list with every earlier loop already simplified. -/
theorem offset_loop_inclusion (amount : ℚ) (raw : List (List Vec))
    (q : List Vec) :
    q ∈ output_filter amount [] raw ↔
      ∃ pre poly post, raw = pre ++ poly :: post ∧
        q = simplify_sequence poly ∧
        keep_condition amount
          (winding_number (find_point_in_poly q)
            (pre.map simplify_sequence ++ q :: post)) := by
  simpa using output_filter_mem amount raw [] q

theorem mem_searchSeq1 (i_start n j : Nat) (hj : j < n) :
    j ∈ searchSeq1 i_start n := by
  unfold searchSeq1
  rcases Nat.lt_or_ge j (i_start + 1) with h | h
  · exact List.mem_append_right _ (List.mem_range.mpr h)
  · refine List.mem_append_left _ ?_
    refine List.mem_range'_1.mpr ⟨h, ?_⟩
    omega

theorem mem_searchSeq2 (i_start n j : Nat) (hj : j < n) :
    j ∈ searchSeq2 i_start n := by
  unfold searchSeq2
  rcases Nat.lt_or_ge j (i_start + 1) with h | h
  · exact List.mem_append_left _ (List.mem_reverse.mpr (List.mem_range.mpr h))
  · refine List.mem_append_right _ (List.mem_reverse.mpr ?_)
    refine List.mem_range'_1.mpr ⟨h, ?_⟩
    omega

theorem all_not_notch_convex (p : List Vec) (hn : 1 < p.length)
    (h : ∀ j, j < p.length → is_notch p j = false) : is_convex_s p = true := by
  have h0 := h 0 (by omega)
  unfold is_notch at h0
  have e1 : (0 + p.length - 1) % p.length = p.length - 1 := by
    rw [Nat.zero_add]
    exact Nat.mod_eq_of_lt (by omega)
  have e2 : (0 + 1) % p.length = 1 := Nat.mod_eq_of_lt (by omega)
  rw [e1, e2] at h0
  simp only [Bool.not_eq_false'] at h0
  unfold is_convex_s
  rw [List.all_eq_true]
  intro x hx
  have hx' := List.mem_range'_1.mp hx
  have hxn : x < p.length := by omega
  have hx1 : 1 ≤ x := hx'.1
  have hnotch := h x hxn
  unfold is_notch at hnotch
  have e3 : (x + p.length - 1) % p.length = x - 1 := by
    have e : x + p.length - 1 = (x - 1) + p.length := by omega
    rw [e, Nat.add_mod_right]
    exact Nat.mod_eq_of_lt (by omega)
  rw [e3] at hnotch
  simp only [Bool.not_eq_false'] at hnotch
  rw [hnotch, h0]
  rfl

theorem notch_search_succeeds (p : List Vec) (seq : List Nat)
    (hcov : ∀ j, j < p.length → j ∈ seq)
    (hlen : 3 < p.length) (hnc : is_convex_s p = false) :
    seq.find? (fun i => is_notch p i) ≠ none := by
  intro hnone
  have hall := List.find?_eq_none.mp hnone
  have hforall : ∀ j, j < p.length → is_notch p j = false := by
    intro j hj
    have := hall j (hcov j hj)
    simpa using this
  have := all_not_notch_convex p (by omega) hforall
  rw [hnc] at this
  exact Bool.false_ne_true this

theorem tryDecomposeTail_ne_searchFail (fuel : Nat) (st : DState)
    (lB : List Nat) : tryDecomposeTail fuel st lB ≠ TDRes.searchFail := by
  unfold tryDecomposeTail
  split
  · intro h
    cases h
  · dsimp only
    split
    · intro h
      cases h
    · intro h
      cases h
    · intro h
      cases h

theorem tryDecompose_ne_searchFail (fuel : Nat) (st : DState) (i_start : Nat)
    (hlen : 3 < st.p.length) (hnc : ¬is_convex_s st.p = true) :
    tryDecompose fuel st i_start ≠ TDRes.searchFail := by
  have hnc' : is_convex_s st.p = false := by
    cases hval : is_convex_s st.p with
    | false => rfl
    | true => exact absurd hval hnc
  intro hcontra
  unfold tryDecompose at hcontra
  cases h1 : (searchSeq1 i_start st.p.length).find? (fun i => is_notch st.p i) with
  | none =>
      exact notch_search_succeeds st.p _
        (fun j hj => mem_searchSeq1 i_start _ j hj) hlen hnc' h1
  | some i_extend =>
      rw [h1] at hcontra
      dsimp only at hcontra
      cases h2 : (searchSeq2 i_start st.p.length).find? (fun i => is_notch st.p i) with
      | none =>
          exact notch_search_succeeds st.p _
            (fun j hj => mem_searchSeq2 i_start _ j hj) hlen hnc' h2
      | some i_extend2 =>
          rw [h2] at hcontra
          dsimp only at hcontra
          exact tryDecomposeTail_ne_searchFail _ _ _ hcontra

theorem mainLoop_ne_searchFail :
    ∀ (fuel : Nat) (st : DState) (i : Nat),
      mainLoop fuel st i ≠ LoopRes.searchFail := by
  intro fuel
  induction fuel with
  | zero =>
      intro st i h
      cases h
  | succ f ih =>
      intro st i
      rw [mainLoop]
      split
      · next hguard =>
          cases htd : tryDecompose f st i with
          | timeout =>
              dsimp only
              intro h
              cases h
          | searchFail =>
              exact absurd htd (tryDecompose_ne_searchFail f st i hguard.1 hguard.2)
          | ok st1 success =>
              dsimp only
              exact ih _ _
      · intro h
        cases h

/-- C4: a convex, non-self-intersecting polygon with at least 3 vertices and
no holes is returned by `convex_decompose` as the single output piece, its
point sequence untouched, for every fuel budget (the shortcut fires before
the main loop runs). -/
theorem convex_decompose_convex_noholes (fuel : Nat) (P : List Vec)
    (hlen : 3 ≤ P.length) (hconv : is_convex_s P = true)
    (hsi : is_self_intersecting P = false) :
    convex_decompose fuel P [] = DecompResult.ok [P] := by
  unfold convex_decompose
  rw [if_neg (by simp [hsi]), if_pos ⟨hconv, rfl⟩]

/-- Witness for C4: the unit square is convex and not self-intersecting, and
decomposes to itself. -/
theorem convex_decompose_convex_noholes_witness :
    convex_decompose 5 [⟨0, 0⟩, ⟨0, 1⟩, ⟨1, 1⟩, ⟨1, 0⟩] [] =
      DecompResult.ok [[⟨0, 0⟩, ⟨0, 1⟩, ⟨1, 1⟩, ⟨1, 0⟩]] :=
  convex_decompose_convex_noholes 5 [⟨0, 0⟩, ⟨0, 1⟩, ⟨1, 1⟩, ⟨1, 0⟩]
    (by decide)
    (by norm_num [is_convex_s, cget, point_orientation, List.range'])
    (by norm_num [is_self_intersecting, cget, check_intersect_lineseg_lineseg,
      veq, EPSILON, List.range_eq_range', List.range', intersect_line_line_u])

/-- C5: `convex_decompose` raises its unrecoverable internal-invariant error
(the leftover-points `Exception`, distinct from the InvalidArgument
`ValueError` of the boolean engine; the notch-search `StopIteration` is
proved unreachable) if and only if the main loop terminates with 1 or 2
working points left — too few to form the final remainder piece; and whenever
the main loop terminates with at least 3 points, the remainder is emitted as
the final output piece instead of raising. -/
theorem convex_decompose_leftover_characterization (fuel : Nat)
    (polygon : List Vec) (holes : List (List Vec)) :
    (((∃ rest, convex_decompose fuel polygon holes =
          DecompResult.leftoverError rest) ∨
        convex_decompose fuel polygon holes = DecompResult.searchFail) ↔
      (is_self_intersecting polygon = false ∧
        ¬(is_convex_s polygon = true ∧ holes = []) ∧
        ∃ st, mainLoop fuel (initState polygon holes) 0 = LoopRes.ok st ∧
          0 < st.p.length ∧ st.p.length < 3)) ∧
    (∀ st, is_self_intersecting polygon = false →
      ¬(is_convex_s polygon = true ∧ holes = []) →
      mainLoop fuel (initState polygon holes) 0 = LoopRes.ok st →
      3 ≤ st.p.length →
      convex_decompose fuel polygon holes =
        DecompResult.ok (st.out ++ [st.p])) := by
  constructor
  · constructor
    · intro h
      by_cases g1 : is_self_intersecting polygon = true
      · exfalso
        unfold convex_decompose at h
        rw [if_pos g1] at h
        rcases h with ⟨rest, h⟩ | h <;> cases h
      · by_cases g2 : is_convex_s polygon = true ∧ holes = []
        · exfalso
          unfold convex_decompose at h
          rw [if_neg g1, if_pos g2] at h
          rcases h with ⟨rest, h⟩ | h <;> cases h
        · have g1' : is_self_intersecting polygon = false := by
            cases hval : is_self_intersecting polygon with
            | false => rfl
            | true => exact absurd hval g1
          refine ⟨g1', g2, ?_⟩
          unfold convex_decompose at h
          rw [if_neg g1, if_neg g2] at h
          cases hml : mainLoop fuel (initState polygon holes) 0 with
          | timeout =>
              rw [hml] at h
              dsimp only at h
              rcases h with ⟨rest, h⟩ | h <;> cases h
          | searchFail => exact absurd hml (mainLoop_ne_searchFail fuel _ 0)
          | ok st =>
              rw [hml] at h
              dsimp only at h
              by_cases h3 : 3 ≤ st.p.length
              · rw [if_pos h3] at h
                rcases h with ⟨rest, h⟩ | h <;> cases h
              · rw [if_neg h3] at h
                by_cases h0 : 0 < st.p.length
                · exact ⟨st, rfl, h0, by omega⟩
                · rw [if_neg h0] at h
                  rcases h with ⟨rest, h⟩ | h <;> cases h
    · rintro ⟨g1, g2, st, hml, h0, h3⟩
      left
      refine ⟨st.p, ?_⟩
      unfold convex_decompose
      rw [if_neg (by simp [g1]), if_neg g2, hml]
      dsimp only
      rw [if_neg (by omega), if_pos h0]
  · intro st g1 g2 hml h3
    unfold convex_decompose
    rw [if_neg (by simp [g1]), if_neg g2, hml]
    dsimp only
    rw [if_pos h3]

/-- Witness for C5 at fuel 0 on an L-shaped hexagon with no holes: the main
loop times out rather than finishing, so by the characterization no
internal-invariant error is raised. -/
theorem convex_decompose_leftover_characterization_witness :
    ¬((∃ rest, convex_decompose 0
          [⟨0, 0⟩, ⟨0, 4⟩, ⟨2, 4⟩, ⟨2, 2⟩, ⟨4, 2⟩, ⟨4, 0⟩] [] =
            DecompResult.leftoverError rest) ∨
      convex_decompose 0 [⟨0, 0⟩, ⟨0, 4⟩, ⟨2, 4⟩, ⟨2, 2⟩, ⟨4, 2⟩, ⟨4, 0⟩] [] =
        DecompResult.searchFail) := by
  intro h
  obtain ⟨st, hst, -, -⟩ :=
    ((convex_decompose_leftover_characterization 0
        [⟨0, 0⟩, ⟨0, 4⟩, ⟨2, 4⟩, ⟨2, 2⟩, ⟨4, 2⟩, ⟨4, 0⟩] []).1.mp h).2.2
  rw [mainLoop] at hst
  cases hst
